import Mathlib

/-!
Verification of `scripts/batch_runner.py`: the batch planner, the dispatch
engine (sequential and bounded-parallel modes), per-batch outcome
classification and the aggregate summary contract.

The embedding follows the source line by line:
* `pyRange` models Python `range(start, stop, step)` (which raises
  `ValueError` when `step = 0`, modelled as `Except.error`).
* `trigger_dag_run` models the function of the same name; the external
  subprocess (`airflow dags trigger` run through `subprocess.run` with
  `timeout=30`) is abstracted as an `InvokerBehavior` supplied per batch:
  it either completes after some duration with a return code and stderr
  text, or cannot start at all (raises).
* `run_batch_processing` models the function of the same name: it plans the
  offsets, then folds per-batch outcomes into the results dict, which the
  source initialises as `{"triggered": 0, "failed": 0}`.  The dict is
  modelled as an insertion-ordered association list, matching Python dict
  semantics for `get`/item assignment.  Parallel completion order is an
  arbitrary permutation of the planned order, supplied as a parameter.
The `RunOutput` record additionally logs the real subprocess invocations
performed (`calls`) and the sleeps performed (`sleeps`), so that claims
about "the collaborator is never invoked" and inter-invocation delay are
statable.
-/

namespace BatchRunner

/-- Python `range(start, stop, step)` as a list, for `step ≠ 0`:
the elements `start + step * i` for `i < ceil((stop-start)/step)`
(clamped at zero), matching CPython's range length formula. -/
def pyRangeList (start stop step : Int) : List Int :=
  if 0 < step then
    (List.range (((stop - start).toNat + (step.toNat - 1)) / step.toNat)).map
      (fun i : Nat => start + step * (i : Int))
  else
    (List.range (((start - stop).toNat + ((-step).toNat - 1)) / (-step).toNat)).map
      (fun i : Nat => start + step * (i : Int))

/-- Python `range(start, stop, step)` including the `ValueError` raised on
`step = 0` ("range() arg 3 must not be zero"). -/
def pyRange (start stop step : Int) : Except String (List Int) :=
  if step = 0 then Except.error "range() arg 3 must not be zero"
  else Except.ok (pyRangeList start stop step)

/-- Behaviour of the external trigger command for one batch: either the
process runs to completion after `duration` time units with a return code
and stderr text, or it cannot start at all (e.g. executable missing) and
the spawn raises with message `msg`. -/
inductive InvokerBehavior where
  | completes (duration : Nat) (returncode : Int) (stderr : String)
  | failsToStart (msg : String)

/-- What `subprocess.run(cmd, capture_output=True, text=True, timeout=t)`
yields: a completed process (return code, stderr), or a raised exception
(spawn failure, or `TimeoutExpired` when the duration exceeds `t`). -/
inductive SubprocResult where
  | completed (returncode : Int) (stderr : String)
  | raised (msg : String)

/-- `subprocess.run` with a bounded wait `t`: a process that cannot start
raises its spawn error; one that takes longer than `t` raises
`TimeoutExpired`; otherwise it completes. -/
def subprocessRun (t : Nat) (b : InvokerBehavior) : SubprocResult :=
  match b with
  | .failsToStart msg => .raised msg
  | .completes d rc err =>
      if t < d then .raised ("Command timed out after " ++ toString t ++ " seconds")
      else .completed rc err

/-- The per-batch result dict of `trigger_dag_run`:
`{"offset": ..., "status": ..., "error": ...?}`. -/
structure TriggerResult where
  offset : Int
  status : String
  error : Option String
deriving DecidableEq

/-- `trigger_dag_run(offset, batch_size, dry_run)` from the source.  If
`dry_run` it returns status `"dry_run"` without touching the subprocess;
otherwise it runs the external command with `timeout=30` and classifies:
return code 0 ↦ `"triggered"`; non-zero ↦ `"failed"` with stderr; any
exception ↦ `"error"` with the exception text.  The second component logs
the subprocess invocations performed, as `(offset, batch_size)` pairs. -/
def trigger_dag_run (invoker : Int → Int → InvokerBehavior)
    (offset batch_size : Int) (dry_run : Bool) :
    TriggerResult × List (Int × Int) :=
  if dry_run then
    ({ offset := offset, status := "dry_run", error := none }, [])
  else
    match subprocessRun 30 (invoker offset batch_size) with
    | .completed rc stderr =>
        if rc = 0 then
          ({ offset := offset, status := "triggered", error := none },
           [(offset, batch_size)])
        else
          ({ offset := offset, status := "failed", error := some stderr },
           [(offset, batch_size)])
    | .raised msg =>
        ({ offset := offset, status := "error", error := some msg },
         [(offset, batch_size)])

/-- The results dict: insertion-ordered association list from status name
to count, as a Python dict. -/
abbrev Summary := List (String × Nat)

/-- Python `d.get(k, 0)`. -/
def dictGet (d : Summary) (k : String) : Nat :=
  match d.find? (fun p => p.1 == k) with
  | some p => p.2
  | none => 0

/-- Python `k in d`. -/
def hasKey (d : Summary) (k : String) : Bool :=
  d.any (fun p => p.1 == k)

/-- Python `d[k] = v`: update in place when present, append otherwise
(dicts preserve insertion order). -/
def dictSet (d : Summary) (k : String) (v : Nat) : Summary :=
  if hasKey d k then d.map (fun p => if p.1 == k then (k, v) else p)
  else d ++ [(k, v)]

/-- The aggregation step `results[s] = results.get(s, 0) + 1`. -/
def incr (d : Summary) (k : String) : Summary :=
  dictSet d k (dictGet d k + 1)

/-- Everything observable about one run: the returned results dict, the
real subprocess invocations performed (in order), and the sleeps performed
(each entry one `time.sleep(delay)` of the given duration). -/
@[ext]
structure RunOutput where
  results : Summary
  calls : List (Int × Int)
  sleeps : List Rat
deriving DecidableEq

/-- One iteration of the sequential loop: trigger the batch, fold its
status into the results, and sleep `delay` when not dry-run, `delay > 0`
and this is not the last planned batch (`i < n - 1`). -/
def seqStep (invoker : Int → Int → InvokerBehavior) (batch_size : Int)
    (dry_run : Bool) (delay : Rat) (n : Nat)
    (acc : RunOutput) (item : Nat × Int) : RunOutput :=
  let r := trigger_dag_run invoker item.2 batch_size dry_run
  { results := incr acc.results r.1.status,
    calls := acc.calls ++ r.2,
    sleeps :=
      if ¬dry_run ∧ 0 < delay ∧ item.1 < n - 1 then acc.sleeps ++ [delay]
      else acc.sleeps }

/-- One step of the parallel-mode aggregation loop (`as_completed`): fold
the completed batch's status into the results.  No sleeping occurs in this
mode. -/
def parStep (invoker : Int → Int → InvokerBehavior) (batch_size : Int)
    (dry_run : Bool) (acc : RunOutput) (offset : Int) : RunOutput :=
  let r := trigger_dag_run invoker offset batch_size dry_run
  { results := incr acc.results r.1.status,
    calls := acc.calls ++ r.2,
    sleeps := acc.sleeps }

/-- The initial results dict of the source: `{"triggered": 0, "failed": 0}`. -/
def initResults : Summary := [("triggered", 0), ("failed", 0)]

/-- `run_batch_processing(total_records, batch_size, parallel, start_offset,
delay, dry_run)` from the source.  `invoker` is the external trigger
collaborator; `completion` maps the planned offsets to the order in which
parallel futures complete (an arbitrary permutation in any real schedule).
Planning is `offsets = list(range(start_offset, total_records, batch_size))`;
`parallel == 1` takes the sequential loop, any other value the thread-pool
loop. -/
def run_batch_processing (invoker : Int → Int → InvokerBehavior)
    (completion : List Int → List Int)
    (total_records batch_size parallel start_offset : Int)
    (delay : Rat) (dry_run : Bool) : Except String RunOutput := do
  let offsets ← pyRange start_offset total_records batch_size
  let init : RunOutput := { results := initResults, calls := [], sleeps := [] }
  if parallel = 1 then
    return offsets.enum.foldl
      (seqStep invoker batch_size dry_run delay offsets.length) init
  else
    return (completion offsets).foldl (parStep invoker batch_size dry_run) init

/-- Sum of all counts in a results dict. -/
def sumCounts (d : Summary) : Nat := (d.map Prod.snd).sum

/-- The keys of a results dict. -/
def dkeys (d : Summary) : List String := d.map Prod.fst

theorem mem_dkeys {d : Summary} {k : String} :
    k ∈ dkeys d ↔ ∃ p ∈ d, p.1 = k := by
  simp [dkeys, List.mem_map, eq_comm]

theorem hasKey_iff_mem {d : Summary} {k : String} :
    hasKey d k = true ↔ k ∈ dkeys d := by
  simp [hasKey, List.any_eq_true, mem_dkeys]

theorem hasKey_false_iff {d : Summary} {k : String} :
    hasKey d k = false ↔ k ∉ dkeys d := by
  rw [← hasKey_iff_mem]
  cases hasKey d k <;> simp

theorem incr_cons_ne (p : String × Nat) (t : Summary) (k : String)
    (h : p.1 ≠ k) : incr (p :: t) k = p :: incr t k := by
  have hb : (p.1 == k) = false := by simpa using h
  simp only [incr, dictGet, dictSet, hasKey, List.find?_cons, hb,
    List.any_cons, Bool.false_or]
  by_cases ht : (List.any t fun q => q.1 == k) = true
  · simp [ht, hb, h]
  · rw [Bool.not_eq_true] at ht
    simp [ht, hb, h]

theorem incr_cons_eq (a : String) (v : Nat) (t : Summary)
    (h : a ∉ dkeys t) : incr ((a, v) :: t) a = (a, v + 1) :: t := by
  have ht : ∀ p ∈ t, p.1 ≠ a := by
    intro p hp hpa
    exact h (mem_dkeys.mpr ⟨p, hp, hpa⟩)
  simp only [incr, dictGet, dictSet, hasKey, List.find?_cons, List.any_cons,
    beq_self_eq_true, Bool.true_or, if_true, List.map_cons]
  refine congrArg₂ (· :: ·) (by simp) ?_
  have : t.map (fun q => if q.1 == a then (a, (v + 1 : Nat)) else q)
      = t.map id := by
    refine List.map_congr_left ?_
    intro q hq
    have hb : (q.1 == a) = false := by simpa using ht q hq
    simp [hb]
  simpa using this

theorem incr_of_fresh (d : Summary) (k : String)
    (h : hasKey d k = false) : incr d k = d ++ [(k, 1)] := by
  have hmem := hasKey_false_iff.mp h
  have hfind : d.find? (fun p => p.1 == k) = none := by
    rw [List.find?_eq_none]
    intro p hp
    simp only [Bool.not_eq_true]
    by_contra hc
    rw [Bool.not_eq_false, beq_iff_eq] at hc
    exact hmem (mem_dkeys.mpr ⟨p, hp, hc⟩)
  simp [incr, dictGet, dictSet, hfind, h]

theorem dkeys_incr (d : Summary) (k : String) :
    dkeys (incr d k) = if hasKey d k then dkeys d else dkeys d ++ [k] := by
  by_cases h : hasKey d k
  · simp only [incr, dictSet, h, if_true, dkeys, List.map_map]
    refine (List.map_congr_left ?_).trans rfl
    intro p _
    by_cases hp : p.1 = k
    · simp [Function.comp, hp]
    · have : (p.1 == k) = false := by simpa using hp
      simp [Function.comp, this]
  · rw [Bool.not_eq_true] at h
    simp [incr_of_fresh d k h, dkeys, h]

theorem nodup_dkeys_incr {d : Summary} (k : String)
    (h : (dkeys d).Nodup) : (dkeys (incr d k)).Nodup := by
  rw [dkeys_incr]
  by_cases hk : hasKey d k
  · simp [hk, h]
  · rw [Bool.not_eq_true] at hk
    simp only [hk, if_false]
    have : k ∉ dkeys d := hasKey_false_iff.mp hk
    simp [List.nodup_append, h, this]

theorem sumCounts_incr {d : Summary} (k : String)
    (h : (dkeys d).Nodup) : sumCounts (incr d k) = sumCounts d + 1 := by
  induction d with
  | nil =>
    rw [incr_of_fresh [] k rfl]
    simp [sumCounts]
  | cons p t ih =>
    obtain ⟨a, v⟩ := p
    simp only [dkeys, List.map_cons, List.nodup_cons] at h
    by_cases ha : a = k
    · subst ha
      rw [incr_cons_eq a v t h.1]
      simp [sumCounts, Nat.add_assoc, Nat.add_comm, Nat.add_left_comm]
    · rw [incr_cons_ne (a, v) t k ha]
      have := ih h.2
      simp only [sumCounts, List.map_cons, List.sum_cons] at this ⊢
      omega

theorem hasKey_incr {d : Summary} {k : String} (k' : String)
    (h : hasKey d k = true) : hasKey (incr d k') k = true := by
  rw [hasKey_iff_mem] at h ⊢
  rw [dkeys_incr]
  by_cases hk : hasKey d k'
  · simpa [hk]
  · rw [Bool.not_eq_true] at hk
    simp [hk, h]

theorem incr_append_last (d : Summary) (k : String) (v : Nat)
    (h : hasKey d k = false) : incr (d ++ [(k, v)]) k = d ++ [(k, v + 1)] := by
  induction d with
  | nil =>
    simpa using incr_cons_eq k v [] (by simp [dkeys])
  | cons p t ih =>
    have hh : (p.1 == k) = false ∧ hasKey t k = false := by
      simpa [hasKey, Bool.or_eq_false_iff] using h
    have hp : p.1 ≠ k := by simpa using hh.1
    rw [List.cons_append, incr_cons_ne p _ k hp, ih hh.2, List.cons_append]

theorem foldl_incr_replicate_last (k : String) :
    ∀ (m : Nat) (d : Summary) (v : Nat), hasKey d k = false →
      (List.replicate m k).foldl incr (d ++ [(k, v)]) = d ++ [(k, v + m)] := by
  intro m
  induction m with
  | zero => intro d v _; rfl
  | succ m' ih =>
    intro d v h
    rw [List.replicate_succ, List.foldl_cons, incr_append_last d k v h,
        ih d (v + 1) h, Nat.add_assoc, Nat.add_comm 1 m']

theorem foldl_incr_replicate_fresh (k : String) (d : Summary)
    (h : hasKey d k = false) (m : Nat) :
    (List.replicate m k).foldl incr d
      = if m = 0 then d else d ++ [(k, m)] := by
  cases m with
  | zero => rfl
  | succ m' =>
    rw [List.replicate_succ, List.foldl_cons, incr_of_fresh d k h,
        foldl_incr_replicate_last k m' d 1 h]
    simp [Nat.add_comm]

theorem foldl_incr_nodup :
    ∀ (ss : List String) (d : Summary), (dkeys d).Nodup →
      (dkeys (ss.foldl incr d)).Nodup := by
  intro ss
  induction ss with
  | nil => intro d h; exact h
  | cons s ss ih =>
    intro d h
    exact ih (incr d s) (nodup_dkeys_incr s h)

theorem foldl_incr_sumCounts :
    ∀ (ss : List String) (d : Summary), (dkeys d).Nodup →
      sumCounts (ss.foldl incr d) = sumCounts d + ss.length := by
  intro ss
  induction ss with
  | nil => intro d _; rfl
  | cons s ss ih =>
    intro d h
    rw [List.foldl_cons, ih (incr d s) (nodup_dkeys_incr s h),
        sumCounts_incr s h, List.length_cons]
    omega

theorem foldl_incr_hasKey (k : String) :
    ∀ (ss : List String) (d : Summary), hasKey d k = true →
      hasKey (ss.foldl incr d) k = true := by
  intro ss
  induction ss with
  | nil => intro d h; exact h
  | cons s ss ih =>
    intro d h
    exact ih (incr d s) (hasKey_incr s h)

theorem trigger_dry (invoker : Int → Int → InvokerBehavior) (o bs : Int) :
    trigger_dag_run invoker o bs true
      = ({ offset := o, status := "dry_run", error := none }, []) := rfl

theorem trigger_dry_status (invoker : Int → Int → InvokerBehavior)
    (o bs : Int) : (trigger_dag_run invoker o bs true).1.status = "dry_run" :=
  rfl

theorem trigger_calls_real (invoker : Int → Int → InvokerBehavior)
    (o bs : Int) : (trigger_dag_run invoker o bs false).2 = [(o, bs)] := by
  rw [trigger_dag_run]
  rcases hs : subprocessRun 30 (invoker o bs) with ⟨rc, err⟩ | msg
  · by_cases h : rc = 0 <;> simp [hs, h]
  · simp [hs]

theorem seqStep_results (invoker : Int → Int → InvokerBehavior)
    (bs : Int) (dry : Bool) (delay : Rat) (n : Nat)
    (acc : RunOutput) (item : Nat × Int) :
    (seqStep invoker bs dry delay n acc item).results
      = incr acc.results (trigger_dag_run invoker item.2 bs dry).1.status := rfl

theorem seqStep_calls (invoker : Int → Int → InvokerBehavior)
    (bs : Int) (dry : Bool) (delay : Rat) (n : Nat)
    (acc : RunOutput) (item : Nat × Int) :
    (seqStep invoker bs dry delay n acc item).calls
      = acc.calls ++ (trigger_dag_run invoker item.2 bs dry).2 := rfl

theorem seqStep_sleeps (invoker : Int → Int → InvokerBehavior)
    (bs : Int) (dry : Bool) (delay : Rat) (n : Nat)
    (acc : RunOutput) (item : Nat × Int) :
    (seqStep invoker bs dry delay n acc item).sleeps
      = if ¬dry ∧ 0 < delay ∧ item.1 < n - 1 then acc.sleeps ++ [delay]
        else acc.sleeps := rfl

theorem seq_foldl_results (invoker : Int → Int → InvokerBehavior)
    (bs : Int) (dry : Bool) (delay : Rat) (n : Nat) :
    ∀ (l : List (Nat × Int)) (acc : RunOutput),
      (l.foldl (seqStep invoker bs dry delay n) acc).results
        = (l.map (fun it =>
            (trigger_dag_run invoker it.2 bs dry).1.status)).foldl
              incr acc.results := by
  intro l
  induction l with
  | nil => intro acc; rfl
  | cons x xs ih =>
    intro acc
    rw [List.foldl_cons, List.map_cons, List.foldl_cons, ih,
        seqStep_results]

theorem seq_foldl_calls_dry (invoker : Int → Int → InvokerBehavior)
    (bs : Int) (delay : Rat) (n : Nat) :
    ∀ (l : List (Nat × Int)) (acc : RunOutput),
      (l.foldl (seqStep invoker bs true delay n) acc).calls = acc.calls := by
  intro l
  induction l with
  | nil => intro acc; rfl
  | cons x xs ih =>
    intro acc
    rw [List.foldl_cons, ih, seqStep_calls, trigger_dry]
    simp

theorem seq_foldl_calls_real (invoker : Int → Int → InvokerBehavior)
    (bs : Int) (delay : Rat) (n : Nat) :
    ∀ (l : List (Nat × Int)) (acc : RunOutput),
      (l.foldl (seqStep invoker bs false delay n) acc).calls
        = acc.calls ++ l.map (fun it => (it.2, bs)) := by
  intro l
  induction l with
  | nil => intro acc; simp
  | cons x xs ih =>
    intro acc
    rw [List.foldl_cons, ih, seqStep_calls, trigger_calls_real,
        List.map_cons, List.append_assoc, List.singleton_append]

theorem seq_foldl_sleeps_off (invoker : Int → Int → InvokerBehavior)
    (bs : Int) (dry : Bool) (delay : Rat) (n : Nat)
    (hcond : dry = true ∨ ¬(0 < delay)) :
    ∀ (l : List (Nat × Int)) (acc : RunOutput),
      (l.foldl (seqStep invoker bs dry delay n) acc).sleeps = acc.sleeps := by
  intro l
  induction l with
  | nil => intro acc; rfl
  | cons x xs ih =>
    intro acc
    rw [List.foldl_cons, ih, seqStep_sleeps]
    rcases hcond with h | h
    · simp [h]
    · simp [h]

theorem seq_foldl_sleeps_on (invoker : Int → Int → InvokerBehavior)
    (bs : Int) (delay : Rat) (n : Nat) (hdelay : 0 < delay) :
    ∀ (l : List Int) (k : Nat) (acc : RunOutput),
      ((List.enumFrom k l).foldl (seqStep invoker bs false delay n) acc).sleeps
        = acc.sleeps ++ List.replicate (min l.length (n - 1 - k)) delay := by
  intro l
  induction l with
  | nil => intro k acc; simp [List.enumFrom]
  | cons x xs ih =>
    intro k acc
    rw [List.enumFrom_cons, List.foldl_cons, ih, seqStep_sleeps]
    by_cases hk : k < n - 1
    · rw [if_pos ⟨by simp, hdelay, hk⟩, List.append_assoc]
      have hmin : min (x :: xs).length (n - 1 - k)
          = min xs.length (n - 1 - (k + 1)) + 1 := by
        simp only [List.length_cons]; omega
      rw [hmin, List.replicate_succ, List.singleton_append]
    · rw [if_neg (by simp [hk])]
      have hmin : min (x :: xs).length (n - 1 - k)
          = min xs.length (n - 1 - (k + 1)) := by
        simp only [List.length_cons]; omega
      rw [hmin]

theorem parStep_results (invoker : Int → Int → InvokerBehavior)
    (bs : Int) (dry : Bool) (acc : RunOutput) (o : Int) :
    (parStep invoker bs dry acc o).results
      = incr acc.results (trigger_dag_run invoker o bs dry).1.status := rfl

theorem parStep_calls (invoker : Int → Int → InvokerBehavior)
    (bs : Int) (dry : Bool) (acc : RunOutput) (o : Int) :
    (parStep invoker bs dry acc o).calls
      = acc.calls ++ (trigger_dag_run invoker o bs dry).2 := rfl

theorem par_foldl_results (invoker : Int → Int → InvokerBehavior)
    (bs : Int) (dry : Bool) :
    ∀ (l : List Int) (acc : RunOutput),
      (l.foldl (parStep invoker bs dry) acc).results
        = (l.map (fun o =>
            (trigger_dag_run invoker o bs dry).1.status)).foldl
              incr acc.results := by
  intro l
  induction l with
  | nil => intro acc; rfl
  | cons x xs ih =>
    intro acc
    rw [List.foldl_cons, List.map_cons, List.foldl_cons, ih, parStep_results]

theorem par_foldl_calls_dry (invoker : Int → Int → InvokerBehavior)
    (bs : Int) :
    ∀ (l : List Int) (acc : RunOutput),
      (l.foldl (parStep invoker bs true) acc).calls = acc.calls := by
  intro l
  induction l with
  | nil => intro acc; rfl
  | cons x xs ih =>
    intro acc
    rw [List.foldl_cons, ih, parStep_calls, trigger_dry]
    simp

theorem par_foldl_calls_real (invoker : Int → Int → InvokerBehavior)
    (bs : Int) :
    ∀ (l : List Int) (acc : RunOutput),
      (l.foldl (parStep invoker bs false) acc).calls
        = acc.calls ++ l.map (fun o => (o, bs)) := by
  intro l
  induction l with
  | nil => intro acc; simp
  | cons x xs ih =>
    intro acc
    rw [List.foldl_cons, ih, parStep_calls, trigger_calls_real,
        List.map_cons, List.append_assoc, List.singleton_append]

theorem par_foldl_sleeps (invoker : Int → Int → InvokerBehavior)
    (bs : Int) (dry : Bool) :
    ∀ (l : List Int) (acc : RunOutput),
      (l.foldl (parStep invoker bs dry) acc).sleeps = acc.sleeps := by
  intro l
  induction l with
  | nil => intro acc; rfl
  | cons x xs ih =>
    intro acc
    rw [List.foldl_cons, ih]
    rfl

/-- Unfolding `run_batch_processing` for a non-zero batch size. -/
theorem run_eq (invoker : Int → Int → InvokerBehavior)
    (completion : List Int → List Int)
    (total bs parallel so : Int) (delay : Rat) (dry : Bool)
    (hbs : bs ≠ 0) :
    run_batch_processing invoker completion total bs parallel so delay dry
      = Except.ok (if parallel = 1
          then (pyRangeList so total bs).enum.foldl
                 (seqStep invoker bs dry delay (pyRangeList so total bs).length)
                 { results := initResults, calls := [], sleeps := [] }
          else (completion (pyRangeList so total bs)).foldl
                 (parStep invoker bs dry)
                 { results := initResults, calls := [], sleeps := [] }) := by
  rw [run_batch_processing, pyRange, if_neg hbs]
  by_cases hp : parallel = 1
  · simp [hp, Bind.bind, Except.bind, Pure.pure, Except.pure]
  · simp [hp, Bind.bind, Except.bind, Pure.pure, Except.pure]

theorem range_mul_lt {d s i : Nat} (hs : 0 < s)
    (hi : i < (d + (s - 1)) / s) : s * i < d := by
  have h2 : (i + 1) * s ≤ d + (s - 1) := (Nat.le_div_iff_mul_le hs).mp hi
  have h3 : i * s + s ≤ d + (s - 1) := by
    rw [Nat.add_mul, Nat.one_mul] at h2; exact h2
  have h4 : s * i = i * s := Nat.mul_comm s i
  omega

theorem dictGet_append_last (d : Summary) (k : String) (v : Nat)
    (h : hasKey d k = false) : dictGet (d ++ [(k, v)]) k = v := by
  induction d with
  | nil => simp [dictGet]
  | cons p t ih =>
    have hh : (p.1 == k) = false ∧ hasKey t k = false := by
      simpa [hasKey, Bool.or_eq_false_iff] using h
    rw [List.cons_append]
    show dictGet (p :: (t ++ [(k, v)])) k = v
    rw [dictGet, List.find?_cons_of_neg _ (by simp [hh.1]), ← dictGet]
    exact ih hh.2

theorem pyRangeList_length (total bs so : Int) (hbs : 0 < bs) :
    (pyRangeList so total bs).length
      = ((total - so).toNat + (bs.toNat - 1)) / bs.toNat := by
  simp [pyRangeList, if_pos hbs]

theorem pyRangeList_empty (total bs so : Int) (hbs : 0 < bs)
    (hts : total ≤ so) : pyRangeList so total bs = [] := by
  rw [pyRangeList, if_pos hbs]
  have ht0 : (total - so).toNat = 0 := by omega
  have hsnat : 0 < bs.toNat := by omega
  have : ((total - so).toNat + (bs.toNat - 1)) / bs.toNat = 0 := by
    rw [ht0, Nat.zero_add]
    exact Nat.div_eq_of_lt (by omega)
  simp [this]

/-- A run whose per-batch status is the constant `k` (fresh w.r.t. the
initial dict) yields counts `{triggered: 0, failed: 0, k: n}` for `n`
planned batches (`{triggered: 0, failed: 0}` when the plan is empty). -/
theorem run_const_status (invoker : Int → Int → InvokerBehavior)
    (completion : List Int → List Int)
    (total bs parallel so : Int) (delay : Rat) (dry : Bool) (k : String)
    (hbs : bs ≠ 0) (hperm : ∀ l : List Int, (completion l).Perm l)
    (hk : hasKey initResults k = false)
    (hstat : ∀ o : Int, (trigger_dag_run invoker o bs dry).1.status = k) :
    ∃ out, run_batch_processing invoker completion total bs parallel so delay dry
        = Except.ok out
      ∧ out.results = (if (pyRangeList so total bs).length = 0 then initResults
          else initResults ++ [(k, (pyRangeList so total bs).length)]) := by
  rw [run_eq invoker completion total bs parallel so delay dry hbs]
  refine ⟨_, rfl, ?_⟩
  by_cases hp : parallel = 1
  · rw [if_pos hp, seq_foldl_results]
    have hmap : (pyRangeList so total bs).enum.map
        (fun it => (trigger_dag_run invoker it.2 bs dry).1.status)
          = List.replicate (pyRangeList so total bs).length k := by
      rw [List.map_congr_left (fun it _ => hstat it.2), List.map_const', List.enum_length]
    rw [hmap, foldl_incr_replicate_fresh k initResults hk]
  · rw [if_neg hp, par_foldl_results]
    have hlen : (completion (pyRangeList so total bs)).length
        = (pyRangeList so total bs).length :=
      (hperm (pyRangeList so total bs)).length_eq
    have hmap : (completion (pyRangeList so total bs)).map
        (fun o => (trigger_dag_run invoker o bs dry).1.status)
          = List.replicate (pyRangeList so total bs).length k := by
      rw [List.map_congr_left (fun o _ => hstat o), List.map_const', hlen]
    rw [hmap, foldl_incr_replicate_fresh k initResults hk]

/-- A dry run performs no subprocess invocation, never sleeps, and its
results are `{triggered: 0, failed: 0}` plus one `dry_run` count per
planned batch. -/
theorem run_dry (invoker : Int → Int → InvokerBehavior)
    (completion : List Int → List Int)
    (total bs parallel so : Int) (delay : Rat)
    (hbs : bs ≠ 0) (hperm : ∀ l : List Int, (completion l).Perm l) :
    run_batch_processing invoker completion total bs parallel so delay true
      = Except.ok
          { results := (if (pyRangeList so total bs).length = 0 then initResults
              else initResults ++ [("dry_run", (pyRangeList so total bs).length)]),
            calls := [],
            sleeps := [] } := by
  rw [run_eq invoker completion total bs parallel so delay true hbs]
  refine congrArg Except.ok ?_
  by_cases hp : parallel = 1
  · rw [if_pos hp]
    refine RunOutput.ext ?_ ?_ ?_
    · rw [seq_foldl_results]
      have hmap : (pyRangeList so total bs).enum.map
          (fun it => (trigger_dag_run invoker it.2 bs true).1.status)
            = List.replicate (pyRangeList so total bs).length "dry_run" := by
        rw [List.map_congr_left (fun (it : Nat × Int) _ =>
              trigger_dry_status invoker it.2 bs),
            List.map_const', List.enum_length]
      rw [hmap, foldl_incr_replicate_fresh "dry_run" initResults (by decide)]
    · rw [seq_foldl_calls_dry]
    · rw [seq_foldl_sleeps_off invoker bs true delay _ (Or.inl rfl)]
  · rw [if_neg hp]
    refine RunOutput.ext ?_ ?_ ?_
    · rw [par_foldl_results]
      have hlen : (completion (pyRangeList so total bs)).length
          = (pyRangeList so total bs).length :=
        (hperm (pyRangeList so total bs)).length_eq
      have hmap : (completion (pyRangeList so total bs)).map
          (fun o => (trigger_dag_run invoker o bs true).1.status)
            = List.replicate (pyRangeList so total bs).length "dry_run" := by
        rw [List.map_congr_left (fun (o : Int) _ =>
              trigger_dry_status invoker o bs),
            List.map_const', hlen]
      rw [hmap, foldl_incr_replicate_fresh "dry_run" initResults (by decide)]
    · rw [par_foldl_calls_dry]
    · rw [par_foldl_sleeps]

/-- C1: for `total ≥ 0`, `batchSize > 0`, `startOffset ≥ 0`, the planning
step (`list(range(start_offset, total_records, batch_size))`) produces
exactly `ceil(max(0, total - startOffset) / batchSize)` offsets, forming
the increasing sequence `startOffset, startOffset + batchSize, ...`, all
strictly below `total`, with first element `startOffset`; in particular
`startOffset ≥ total` gives the empty sequence as a valid result. -/
theorem claim_C1 (total bs so : Int)
    (htot : 0 ≤ total) (hbs : 0 < bs) (hso : 0 ≤ so) :
    ∃ l, pyRange so total bs = Except.ok l
      ∧ l.length = ((total - so).toNat + (bs.toNat - 1)) / bs.toNat
      ∧ (∀ i : Fin l.length, l.get i = so + bs * (i : Nat))
      ∧ l.Pairwise (· < ·)
      ∧ (∀ x ∈ l, x < total)
      ∧ (l ≠ [] → l.head? = some so)
      ∧ (total ≤ so → l = []) := by
  set n := ((total - so).toNat + (bs.toNat - 1)) / bs.toNat with hn
  have hlist : pyRangeList so total bs
      = (List.range n).map (fun i : Nat => so + bs * (i : Int)) := by
    rw [pyRangeList, if_pos hbs]
  refine ⟨(List.range n).map (fun i : Nat => so + bs * (i : Int)),
    ?_, ?_, ?_, ?_, ?_, ?_, ?_⟩
  · rw [pyRange, if_neg hbs.ne', hlist]
  · simp
  · intro i
    simp
  · have hmono : ∀ a b : Nat, a < b → so + bs * a < so + bs * b := by
      intro a b hab
      have hcast : (a : Int) < (b : Int) := by exact_mod_cast hab
      exact add_lt_add_left (mul_lt_mul_of_pos_left hcast hbs) so
    exact (List.pairwise_lt_range n).map _ (fun a b h => hmono a b h)
  · intro x hx
    obtain ⟨i, hi, rfl⟩ := List.mem_map.mp hx
    rw [List.mem_range] at hi
    have hsnat : 0 < bs.toNat := by omega
    have h1 : bs.toNat * i < (total - so).toNat := range_mul_lt hsnat hi
    have h2 : ((bs.toNat * i : Nat) : Int) < (((total - so).toNat : Nat) : Int) := by
      exact_mod_cast h1
    push_cast at h2
    rw [Int.toNat_of_nonneg hbs.le] at h2
    have h3 : ((total - so).toNat : Int) = max (total - so) 0 := Int.toNat_eq_max _
    have h4 : (0 : Int) ≤ bs * (i : Int) :=
      mul_nonneg hbs.le (Int.natCast_nonneg i)
    omega
  · intro hne
    have hn0 : n ≠ 0 := by
      intro h0
      apply hne
      simp [h0]
    obtain ⟨m, hm⟩ := Nat.exists_eq_succ_of_ne_zero hn0
    rw [hm, List.range_succ_eq_map]
    simp
  · intro hts
    have ht0 : (total - so).toNat = 0 := by omega
    have hsnat : 0 < bs.toNat := by omega
    have hn0 : n = 0 := by
      rw [hn, ht0, Nat.zero_add]
      exact Nat.div_eq_of_lt (by omega)
    simp [hn0]

/-- Witness for C1 at `total = 10`, `batchSize = 3`, `startOffset = 0`. -/
theorem claim_C1_witness :
    ((0:Int) ≤ 10 ∧ (0:Int) < 3 ∧ (0:Int) ≤ 0)
    ∧ (∃ l, pyRange 0 10 3 = Except.ok l
        ∧ l.length = (((10:Int) - 0).toNat + ((3:Int).toNat - 1)) / (3:Int).toNat
        ∧ (∀ i : Fin l.length, l.get i = 0 + 3 * (i : Nat))
        ∧ l.Pairwise (· < ·)
        ∧ (∀ x ∈ l, x < 10)
        ∧ (l ≠ [] → l.head? = some 0)
        ∧ ((10:Int) ≤ 0 → l = [])) :=
  ⟨⟨by decide, by decide, by decide⟩,
    claim_C1 10 3 0 (by decide) (by decide) (by decide)⟩

/-- C2: for every run — sequential (`parallel = 1`) or parallel (any other
`parallel`, any completion order) — the counts of the returned summary sum
to exactly the number of planned batches. -/
theorem claim_C2 (invoker : Int → Int → InvokerBehavior)
    (completion : List Int → List Int)
    (total bs parallel so : Int) (delay : Rat) (dry : Bool)
    (hbs : bs ≠ 0) (hperm : ∀ l : List Int, (completion l).Perm l) :
    ∃ out, run_batch_processing invoker completion total bs parallel so delay dry
        = Except.ok out
      ∧ sumCounts out.results = (pyRangeList so total bs).length := by
  rw [run_eq invoker completion total bs parallel so delay dry hbs]
  refine ⟨_, rfl, ?_⟩
  by_cases hp : parallel = 1
  · rw [if_pos hp, seq_foldl_results, foldl_incr_sumCounts _ _ (by decide)]
    simp [sumCounts, initResults, List.enum_length]
  · rw [if_neg hp, par_foldl_results, foldl_incr_sumCounts _ _ (by decide)]
    have hlen := (hperm (pyRangeList so total bs)).length_eq
    simp [sumCounts, initResults, hlen]

/-- Witness for C2: a sequential run over 4 planned batches with an
always-failing-to-start invoker. -/
theorem claim_C2_witness :
    ((3:Int) ≠ 0 ∧ ∀ l : List Int, (id l).Perm l)
    ∧ ∃ out, run_batch_processing (fun _ _ => InvokerBehavior.failsToStart "no")
          id 10 3 1 0 1 false = Except.ok out
        ∧ sumCounts out.results = (pyRangeList 0 10 3).length :=
  ⟨⟨by decide, fun l => List.Perm.refl l⟩,
    claim_C2 (fun _ _ => InvokerBehavior.failsToStart "no") id 10 3 1 0 1 false
      (by decide) (fun l => List.Perm.refl l)⟩

/-- C3: with `dryRun = true`, every planned batch yields the `dry_run`
outcome and the external subprocess is never invoked (`calls = []`); the
short-circuit is performed inside the engine's own per-batch step, whose
result is fixed before and independent of the external collaborator. -/
theorem claim_C3 (invoker invoker2 : Int → Int → InvokerBehavior)
    (completion : List Int → List Int)
    (total bs parallel so : Int) (delay : Rat)
    (hbs : bs ≠ 0) (hperm : ∀ l : List Int, (completion l).Perm l) :
    (∀ o b : Int,
        trigger_dag_run invoker o b true
          = ({ offset := o, status := "dry_run", error := none }, [])
      ∧ trigger_dag_run invoker o b true = trigger_dag_run invoker2 o b true)
    ∧ ∃ out, run_batch_processing invoker completion total bs parallel so delay true
        = Except.ok out
      ∧ out.calls = []
      ∧ dictGet out.results "dry_run" = (pyRangeList so total bs).length
      ∧ sumCounts out.results = (pyRangeList so total bs).length := by
  refine ⟨fun o b => ⟨rfl, rfl⟩, ?_⟩
  rw [run_dry invoker completion total bs parallel so delay hbs hperm]
  refine ⟨_, rfl, rfl, ?_, ?_⟩
  · by_cases h0 : (pyRangeList so total bs).length = 0
    · simp [h0, dictGet, initResults]
    · rw [if_neg h0, dictGet_append_last _ _ _ (by decide)]
  · by_cases h0 : (pyRangeList so total bs).length = 0
    · simp [h0, sumCounts, initResults]
    · rw [if_neg h0]
      simp [sumCounts, initResults]

/-- Witness for C3: a parallel dry run over 4 planned batches, checked
against two different collaborators. -/
theorem claim_C3_witness :
    ((3:Int) ≠ 0 ∧ ∀ l : List Int, (id l).Perm l)
    ∧ ((∀ o b : Int,
        trigger_dag_run (fun _ _ => InvokerBehavior.completes 1 0 "") o b true
          = ({ offset := o, status := "dry_run", error := none }, [])
      ∧ trigger_dag_run (fun _ _ => InvokerBehavior.completes 1 0 "") o b true
          = trigger_dag_run (fun _ _ => InvokerBehavior.failsToStart "no") o b true)
    ∧ ∃ out, run_batch_processing (fun _ _ => InvokerBehavior.completes 1 0 "")
          id 10 3 5 0 1 true = Except.ok out
        ∧ out.calls = []
        ∧ dictGet out.results "dry_run" = (pyRangeList 0 10 3).length
        ∧ sumCounts out.results = (pyRangeList 0 10 3).length) :=
  ⟨⟨by decide, fun l => List.Perm.refl l⟩,
    claim_C3 (fun _ _ => InvokerBehavior.completes 1 0 "")
      (fun _ _ => InvokerBehavior.failsToStart "no") id 10 3 5 0 1
      (by decide) (fun l => List.Perm.refl l)⟩

/-- C4: a real (non-dry-run) per-batch invocation is classified into
exactly one of three statuses: return code 0 yields `triggered`; a
non-zero return code yields `failed` carrying the stderr text; an
invocation that could not complete — duration past the bounded wait of
30, or the executable failing to start — yields `error` carrying the
exception text. -/
theorem claim_C4 (invoker : Int → Int → InvokerBehavior) (o bs : Int) :
    ((trigger_dag_run invoker o bs false).1.status = "triggered"
      ∨ (trigger_dag_run invoker o bs false).1.status = "failed"
      ∨ (trigger_dag_run invoker o bs false).1.status = "error")
    ∧ (∀ d err, invoker o bs = InvokerBehavior.completes d 0 err → d ≤ 30 →
        (trigger_dag_run invoker o bs false).1
          = { offset := o, status := "triggered", error := none })
    ∧ (∀ d rc err, invoker o bs = InvokerBehavior.completes d rc err →
        d ≤ 30 → rc ≠ 0 →
        (trigger_dag_run invoker o bs false).1
          = { offset := o, status := "failed", error := some err })
    ∧ (∀ d rc err, invoker o bs = InvokerBehavior.completes d rc err → 30 < d →
        (trigger_dag_run invoker o bs false).1
          = { offset := o, status := "error",
              error := some "Command timed out after 30 seconds" })
    ∧ (∀ msg, invoker o bs = InvokerBehavior.failsToStart msg →
        (trigger_dag_run invoker o bs false).1
          = { offset := o, status := "error", error := some msg }) := by
  refine ⟨?_, ?_, ?_, ?_, ?_⟩
  · rcases hb : invoker o bs with ⟨d, rc, err⟩ | msg
    · by_cases hd : 30 < d
      · right; right; simp [trigger_dag_run, subprocessRun, hb, hd]
      · by_cases hrc : rc = 0
        · left; simp [trigger_dag_run, subprocessRun, hb, hd, hrc]
        · right; left; simp [trigger_dag_run, subprocessRun, hb, hd, hrc]
    · right; right; simp [trigger_dag_run, subprocessRun, hb]
  · intro d err h hd
    simp [trigger_dag_run, subprocessRun, h, Nat.not_lt.mpr hd]
  · intro d rc err h hd hrc
    simp [trigger_dag_run, subprocessRun, h, Nat.not_lt.mpr hd, hrc]
  · intro d rc err h hd
    simp [trigger_dag_run, subprocessRun, h, hd]
    rfl
  · intro msg h
    simp [trigger_dag_run, subprocessRun, h]

/-- Witness for C4: the four classifications at concrete behaviours
(fast success, fast non-zero exit, duration 31 > 30, spawn failure). -/
theorem claim_C4_witness :
    ((trigger_dag_run (fun _ _ => InvokerBehavior.completes 1 0 "") 0 5 false).1
        = { offset := 0, status := "triggered", error := none })
    ∧ ((trigger_dag_run (fun _ _ => InvokerBehavior.completes 1 2 "boom") 0 5 false).1
        = { offset := 0, status := "failed", error := some "boom" })
    ∧ ((trigger_dag_run (fun _ _ => InvokerBehavior.completes 31 0 "") 0 5 false).1
        = { offset := 0, status := "error",
            error := some "Command timed out after 30 seconds" })
    ∧ ((trigger_dag_run (fun _ _ => InvokerBehavior.failsToStart "no exec") 0 5 false).1
        = { offset := 0, status := "error", error := some "no exec" }) :=
  ⟨(claim_C4 (fun _ _ => InvokerBehavior.completes 1 0 "") 0 5).2.1
      1 "" rfl (by decide),
   (claim_C4 (fun _ _ => InvokerBehavior.completes 1 2 "boom") 0 5).2.2.1
      1 2 "boom" rfl (by decide) (by decide),
   (claim_C4 (fun _ _ => InvokerBehavior.completes 31 0 "") 0 5).2.2.2.1
      31 0 "" rfl (by decide),
   (claim_C4 (fun _ _ => InvokerBehavior.failsToStart "no exec") 0 5).2.2.2.2
      "no exec" rfl⟩

/-- C5: a fault while invoking one batch never aborts the run: any run
completes with a summary for every invoker behaviour; a spawn failure is
converted to an `error` outcome for that batch only; and a run in which
every invocation fails to start still completes, with every batch counted
as `error`. -/
theorem claim_C5 (invoker : Int → Int → InvokerBehavior)
    (completion : List Int → List Int)
    (total bs parallel so : Int) (delay : Rat) (dry : Bool) (msg : String)
    (hbs : bs ≠ 0) (hperm : ∀ l : List Int, (completion l).Perm l) :
    (∃ out, run_batch_processing invoker completion total bs parallel so delay dry
        = Except.ok out)
    ∧ (∀ o b : Int, invoker o b = InvokerBehavior.failsToStart msg →
        (trigger_dag_run invoker o b false).1
          = { offset := o, status := "error", error := some msg })
    ∧ (∃ out, run_batch_processing (fun _ _ => InvokerBehavior.failsToStart msg)
          completion total bs parallel so delay false = Except.ok out
        ∧ dictGet out.results "error" = (pyRangeList so total bs).length
        ∧ sumCounts out.results = (pyRangeList so total bs).length) := by
  refine ⟨⟨_, run_eq invoker completion total bs parallel so delay dry hbs⟩, ?_, ?_⟩
  · intro o b h
    simp [trigger_dag_run, subprocessRun, h]
  · obtain ⟨out, hout, hres⟩ := run_const_status
      (fun _ _ => InvokerBehavior.failsToStart msg) completion total bs parallel
      so delay false "error" hbs hperm (by decide) (fun o => rfl)
    refine ⟨out, hout, ?_, ?_⟩
    · rw [hres]
      by_cases h0 : (pyRangeList so total bs).length = 0
      · simp [h0, dictGet, initResults]
      · rw [if_neg h0, dictGet_append_last _ _ _ (by decide)]
    · rw [hres]
      by_cases h0 : (pyRangeList so total bs).length = 0
      · simp [h0, sumCounts, initResults]
      · rw [if_neg h0]
        simp [sumCounts, initResults]

/-- Witness for C5: a parallel run over 4 planned batches, all of whose
invocations fail to start. -/
theorem claim_C5_witness :
    ((3:Int) ≠ 0 ∧ ∀ l : List Int, (id l).Perm l)
    ∧ ((∃ out, run_batch_processing (fun _ _ => InvokerBehavior.completes 1 0 "")
          id 10 3 5 0 1 false = Except.ok out)
    ∧ (∀ o b : Int, (fun _ _ => InvokerBehavior.completes 1 0 "") o b
          = InvokerBehavior.failsToStart "cannot start" →
        (trigger_dag_run (fun _ _ => InvokerBehavior.completes 1 0 "") o b false).1
          = { offset := o, status := "error", error := some "cannot start" })
    ∧ (∃ out, run_batch_processing
          (fun _ _ => InvokerBehavior.failsToStart "cannot start")
          id 10 3 5 0 1 false = Except.ok out
        ∧ dictGet out.results "error" = (pyRangeList 0 10 3).length
        ∧ sumCounts out.results = (pyRangeList 0 10 3).length)) :=
  ⟨⟨by decide, fun l => List.Perm.refl l⟩,
    claim_C5 (fun _ _ => InvokerBehavior.completes 1 0 "") id 10 3 5 0 1 false
      "cannot start" (by decide) (fun l => List.Perm.refl l)⟩

/-- C6: in sequential mode the engine sleeps `delay` between consecutive
invocations but not after the last one, and skips sleeping entirely when
dry-run or `delay ≤ 0`: for `n` planned batches the sleep log is exactly
`n - 1` entries of `delay` when `delay > 0` and not dry-run, else empty. -/
theorem claim_C6 (invoker : Int → Int → InvokerBehavior)
    (completion : List Int → List Int)
    (total bs so : Int) (delay : Rat) (dry : Bool) (hbs : bs ≠ 0) :
    ∃ out, run_batch_processing invoker completion total bs 1 so delay dry
        = Except.ok out
      ∧ out.sleeps = (if dry = false ∧ 0 < delay
          then List.replicate ((pyRangeList so total bs).length - 1) delay
          else ([] : List Rat)) := by
  rw [run_eq invoker completion total bs 1 so delay dry hbs, if_pos rfl]
  refine ⟨_, rfl, ?_⟩
  by_cases hdry : dry = false
  · subst hdry
    by_cases hdel : 0 < delay
    · rw [show (pyRangeList so total bs).enum
            = List.enumFrom 0 (pyRangeList so total bs) from rfl,
          seq_foldl_sleeps_on invoker bs delay (pyRangeList so total bs).length
            hdel (pyRangeList so total bs) 0 _,
          if_pos ⟨rfl, hdel⟩]
      have hmin : min (pyRangeList so total bs).length
          ((pyRangeList so total bs).length - 1 - 0)
            = (pyRangeList so total bs).length - 1 := by omega
      rw [hmin]
      simp
    · rw [seq_foldl_sleeps_off invoker bs false delay _ (Or.inr hdel),
          if_neg (fun hc => hdel hc.2)]
  · have hdry' : dry = true := by
      revert hdry; cases dry <;> simp
    rw [seq_foldl_sleeps_off invoker bs dry delay _ (Or.inl hdry'),
        if_neg (by simp [hdry'])]

/-- Witness for C6: sequential run over 4 batches with `delay = 1`, not
dry-run: exactly 3 sleeps. -/
theorem claim_C6_witness :
    ((3:Int) ≠ 0)
    ∧ ∃ out, run_batch_processing (fun _ _ => InvokerBehavior.completes 1 0 "")
          id 10 3 1 0 1 false = Except.ok out
        ∧ out.sleeps = (if false = false ∧ (0:Rat) < 1
            then List.replicate ((pyRangeList 0 10 3).length - 1) (1:Rat)
            else ([] : List Rat)) :=
  ⟨by decide,
    claim_C6 (fun _ _ => InvokerBehavior.completes 1 0 "") id 10 3 0 1 false
      (by decide)⟩

/-- The scenario plan `range(0, 5000000, 1000)` has 5000 offsets. -/
theorem scenario_length : (pyRangeList 0 5000000 1000).length = 5000 := by
  rw [pyRangeList_length 5000000 1000 0 (by decide)]
  decide

/-- C7 counterexample: at `total = 5000000, batchSize = 1000, parallel = 5,
dryRun = true` the returned summary is not `{dry_run: 5000}` and is not
built from an empty initial mapping: the source initialises the results
dict as `{"triggered": 0, "failed": 0}`, and both keys are still present
in the returned summary. -/
theorem claim_C7_counterexample :
    ∃ out, run_batch_processing (fun _ _ => InvokerBehavior.completes 1 0 "")
        id 5000000 1000 5 0 1 true = Except.ok out
      ∧ out.results = [("triggered", 0), ("failed", 0), ("dry_run", 5000)]
      ∧ out.results ≠ [("dry_run", 5000)]
      ∧ hasKey out.results "triggered" = true := by
  rw [run_dry (fun _ _ => InvokerBehavior.completes 1 0 "") id 5000000 1000 5 0 1
      (by decide) (fun l => List.Perm.refl l), scenario_length]
  exact ⟨_, rfl, by decide, by decide, by decide⟩

/-- C7 amended: the aggregate summary maps outcome-kind name to count but
is initialised as `{triggered: 0, failed: 0}` (not empty), then
incremented once per outcome; the scenario `total = 5000000,
batchSize = 1000, parallel = 5, dryRun = true` produces 5000 `dry_run`
outcomes, zero real invocations, and returns the summary
`{triggered: 0, failed: 0, dry_run: 5000}`. -/
theorem claim_C7_amended (invoker : Int → Int → InvokerBehavior)
    (completion : List Int → List Int)
    (hperm : ∀ l : List Int, (completion l).Perm l) :
    initResults = [("triggered", 0), ("failed", 0)]
    ∧ run_batch_processing invoker completion 5000000 1000 5 0 1 true
      = Except.ok { results := [("triggered", 0), ("failed", 0), ("dry_run", 5000)],
                    calls := [], sleeps := [] } := by
  refine ⟨rfl, ?_⟩
  rw [run_dry invoker completion 5000000 1000 5 0 1 (by decide) hperm,
      scenario_length]
  rfl

/-- Witness for C7 amended: the scenario run with the identity completion
order. -/
theorem claim_C7_amended_witness :
    (∀ l : List Int, (id l).Perm l)
    ∧ (initResults = [("triggered", 0), ("failed", 0)]
    ∧ run_batch_processing (fun _ _ => InvokerBehavior.failsToStart "x")
        id 5000000 1000 5 0 1 true
      = Except.ok { results := [("triggered", 0), ("failed", 0), ("dry_run", 5000)],
                    calls := [], sleeps := [] }) :=
  ⟨fun l => List.Perm.refl l,
    claim_C7_amended (fun _ _ => InvokerBehavior.failsToStart "x") id
      (fun l => List.Perm.refl l)⟩

/-- C8: the planner never clips the final batch: every real dispatch is
invoked with size exactly `batchSize`, even when `offset + batchSize`
exceeds `total`; concretely `total = 10, batchSize = 3, startOffset = 0`
plans offsets `[0, 3, 6, 9]` and performs those four invocations each with
size 3, although `9 + 3 = 12` exceeds `total = 10`. -/
theorem claim_C8 (invoker : Int → Int → InvokerBehavior)
    (completion : List Int → List Int)
    (total bs parallel so : Int) (delay : Rat)
    (hbs : bs ≠ 0) (hperm : ∀ l : List Int, (completion l).Perm l) :
    (∃ out, run_batch_processing invoker completion total bs parallel so delay false
        = Except.ok out
      ∧ out.calls.length = (pyRangeList so total bs).length
      ∧ ∀ c ∈ out.calls, c.2 = bs)
    ∧ pyRangeList 0 10 3 = [0, 3, 6, 9]
    ∧ (∃ out, run_batch_processing invoker id 10 3 1 0 delay false
        = Except.ok out
      ∧ out.calls = [(0, 3), (3, 3), (6, 3), (9, 3)])
    ∧ (10 : Int) < 9 + 3 := by
  refine ⟨?_, by decide, ?_, by decide⟩
  · rw [run_eq invoker completion total bs parallel so delay false hbs]
    by_cases hp : parallel = 1
    · rw [if_pos hp]
      refine ⟨_, rfl, ?_, ?_⟩
      · rw [seq_foldl_calls_real]
        simp [List.enum_length]
      · intro c hc
        rw [seq_foldl_calls_real] at hc
        simp only [List.nil_append, List.mem_map] at hc
        obtain ⟨it, _, rfl⟩ := hc
        rfl
    · rw [if_neg hp]
      refine ⟨_, rfl, ?_, ?_⟩
      · rw [par_foldl_calls_real]
        simp [(hperm (pyRangeList so total bs)).length_eq]
      · intro c hc
        rw [par_foldl_calls_real] at hc
        simp only [List.nil_append, List.mem_map] at hc
        obtain ⟨o, _, rfl⟩ := hc
        rfl
  · rw [run_eq invoker id 10 3 1 0 delay false (by decide), if_pos rfl]
    refine ⟨_, rfl, ?_⟩
    rw [seq_foldl_calls_real]
    decide

/-- Witness for C8: the general size-preservation clause at a concrete
sequential run. -/
theorem claim_C8_witness :
    ((3:Int) ≠ 0 ∧ ∀ l : List Int, (id l).Perm l)
    ∧ ((∃ out, run_batch_processing (fun _ _ => InvokerBehavior.completes 1 0 "")
          id 10 3 1 0 1 false = Except.ok out
        ∧ out.calls.length = (pyRangeList 0 10 3).length
        ∧ ∀ c ∈ out.calls, c.2 = 3)
    ∧ pyRangeList 0 10 3 = [0, 3, 6, 9]
    ∧ (∃ out, run_batch_processing (fun _ _ => InvokerBehavior.completes 1 0 "")
          id 10 3 1 0 1 false = Except.ok out
        ∧ out.calls = [(0, 3), (3, 3), (6, 3), (9, 3)])
    ∧ (10 : Int) < 9 + 3) :=
  ⟨⟨by decide, fun l => List.Perm.refl l⟩,
    claim_C8 (fun _ _ => InvokerBehavior.completes 1 0 "") id 10 3 1 0 1
      (by decide) (fun l => List.Perm.refl l)⟩

/-- C9: the returned summary of every run contains the keys `triggered`
and `failed`, even when no batch produced those outcomes; in particular a
run with an empty plan (`startOffset ≥ total`) returns exactly
`{triggered: 0, failed: 0}`. -/
theorem claim_C9 (invoker : Int → Int → InvokerBehavior)
    (completion : List Int → List Int)
    (total bs parallel so : Int) (delay : Rat) (dry : Bool)
    (hbs : 0 < bs) (hperm : ∀ l : List Int, (completion l).Perm l) :
    (∃ out, run_batch_processing invoker completion total bs parallel so delay dry
        = Except.ok out
      ∧ hasKey out.results "triggered" = true
      ∧ hasKey out.results "failed" = true)
    ∧ (total ≤ so →
        run_batch_processing invoker completion total bs parallel so delay dry
          = Except.ok { results := [("triggered", 0), ("failed", 0)],
                        calls := [], sleeps := [] }) := by
  constructor
  · rw [run_eq invoker completion total bs parallel so delay dry hbs.ne']
    by_cases hp : parallel = 1
    · rw [if_pos hp]
      refine ⟨_, rfl, ?_, ?_⟩
      · rw [seq_foldl_results]
        exact foldl_incr_hasKey "triggered" _ _ (by decide)
      · rw [seq_foldl_results]
        exact foldl_incr_hasKey "failed" _ _ (by decide)
    · rw [if_neg hp]
      refine ⟨_, rfl, ?_, ?_⟩
      · rw [par_foldl_results]
        exact foldl_incr_hasKey "triggered" _ _ (by decide)
      · rw [par_foldl_results]
        exact foldl_incr_hasKey "failed" _ _ (by decide)
  · intro hts
    have hempty := pyRangeList_empty total bs so hbs hts
    rw [run_eq invoker completion total bs parallel so delay dry hbs.ne', hempty]
    by_cases hp : parallel = 1
    · rw [if_pos hp]
      rfl
    · rw [if_neg hp, (hperm []).eq_nil]
      rfl

/-- Witness for C9: empty plan (`startOffset = 7 ≥ total = 5`). -/
theorem claim_C9_witness :
    ((0:Int) < 3 ∧ ∀ l : List Int, (id l).Perm l)
    ∧ ((∃ out, run_batch_processing (fun _ _ => InvokerBehavior.completes 1 0 "")
          id 5 3 1 7 1 false = Except.ok out
        ∧ hasKey out.results "triggered" = true
        ∧ hasKey out.results "failed" = true)
    ∧ ((5:Int) ≤ 7 →
        run_batch_processing (fun _ _ => InvokerBehavior.completes 1 0 "")
          id 5 3 1 7 1 false
          = Except.ok { results := [("triggered", 0), ("failed", 0)],
                        calls := [], sleeps := [] })) :=
  ⟨⟨by decide, fun l => List.Perm.refl l⟩,
    claim_C9 (fun _ _ => InvokerBehavior.completes 1 0 "") id 5 3 1 7 1 false
      (by decide) (fun l => List.Perm.refl l)⟩

/-- C10: with `batchSize = 0`, offset generation (`range` with step 0)
raises `range() arg 3 must not be zero` before any batch is dispatched and
`run_batch_processing` returns no summary; under the precondition
`batchSize > 0` offset generation is total. -/
theorem claim_C10 (invoker : Int → Int → InvokerBehavior)
    (completion : List Int → List Int)
    (total parallel so bs : Int) (delay : Rat) (dry : Bool) (hbs : 0 < bs) :
    run_batch_processing invoker completion total 0 parallel so delay dry
      = Except.error "range() arg 3 must not be zero"
    ∧ ∃ l, pyRange so total bs = Except.ok l := by
  constructor
  · rw [run_batch_processing, pyRange, if_pos rfl]
    rfl
  · exact ⟨_, by rw [pyRange, if_neg hbs.ne']⟩

/-- Witness for C10 at `batchSize = 0` (failing) and `batchSize = 3`
(total). -/
theorem claim_C10_witness :
    ((0:Int) < 3)
    ∧ (run_batch_processing (fun _ _ => InvokerBehavior.completes 1 0 "")
        id 10 0 1 0 1 false
        = Except.error "range() arg 3 must not be zero"
    ∧ ∃ l, pyRange 0 10 3 = Except.ok l) :=
  ⟨by decide,
    claim_C10 (fun _ _ => InvokerBehavior.completes 1 0 "") id 10 1 0 3 1 false
      (by decide)⟩

end BatchRunner
